import Mathlib

/-!
# ProgressionExplorer: verification of the music-theory and playback engine

Shallow embedding of the chord-progression explorer's core (note arithmetic,
chord parsing, key model, harmonic analyser, successor engine, transposer,
voicing resolver, catalogue validator and MIDI serialiser), together with
proofs and refutations of the stated behavioural properties.

Conventions of the embedding:
* JavaScript strings are Lean `String`s; regular-expression parses are
  implemented as character-list parsers equivalent to the anchored regexes on
  the inputs the program feeds them.
* JavaScript `Array.prototype.indexOf` (returning `-1` on a miss) is `jsIndexOf`.
* JavaScript's specification-mandated stable `Array.prototype.sort` is
  `List.insertionSort` (Mathlib's insertion sort is stable).
* `null`/`undefined`-producing operations return `Option`.
* Arithmetic on ticks is over `Int`, durations over `ℚ`; `Math.round x` is
  `⌊x + 1/2⌋` and `Math.floor` on nonnegative integer division is `Nat` division.
-/

namespace ProgressionExplorer

/-- `NOTES` from `data/theory.ts`: the twelve pitch-class names in sharp
spelling (written as the concatenation of two halves; same list). -/
def NOTES : List String :=
  ["C", "C#", "D", "D#", "E", "F"] ++ ["F#", "G", "G#", "A", "A#", "B"]

/-- JS `list.indexOf x` with accumulator: `-1` when absent. -/
def jsIndexOfAux (x : String) : List String → Int → Int
  | [], _ => -1
  | y :: ys, n => if y = x then n else jsIndexOfAux x ys (n + 1)

/-- JS `list.indexOf x`. -/
def jsIndexOf (l : List String) (x : String) : Int :=
  jsIndexOfAux x l 0

/-- Result of `parseChordName`. -/
structure ChordInfo where
  root : String
  quality : String
deriving DecidableEq, Repr

/-- `parseChordName` from `harmonics` (src/unnamed/part_004): the anchored regex
`^([A-G][#b]?)(.*)$`.  The dot does not match a newline, so a chord name whose
quality part contains a newline fails to parse. -/
def parseChordName (chordName : String) : Option ChordInfo :=
  match chordName.toList with
  | [] => none
  | c :: rest =>
    if 'A' ≤ c ∧ c ≤ 'G' then
      match rest with
      | a :: rest2 =>
        if a = '#' ∨ a = 'b' then
          if rest2.contains '\n' then none
          else some ⟨String.mk [c, a], String.mk rest2⟩
        else if rest.contains '\n' then none
        else some ⟨String.mk [c], String.mk rest⟩
      | [] => some ⟨String.mk [c], ""⟩
    else none

/-- Helper: read a nonempty all-digit character list as a natural number. -/
def digitsToNat? (cs : List Char) : Option Nat :=
  if cs ≠ [] ∧ cs.all Char.isDigit then
    some (cs.foldl (fun acc c => acc * 10 + (c.toNat - '0'.toNat)) 0)
  else none

/-- Split a note name `"C#4"` into root and octave per the regex
`([A-G][#b]?)(\d+)` of `noteToMidi` in part_004.  On the note names the
program produces (tuning strings, `midiToNote` outputs) the unanchored regex
matches exactly this anchored shape or not at all. -/
def parseNoteName (note : String) : Option (String × Nat) :=
  match note.toList with
  | [] => none
  | c :: rest =>
    if 'A' ≤ c ∧ c ≤ 'G' then
      match rest with
      | a :: rest2 =>
        if a = '#' ∨ a = 'b' then
          (digitsToNat? rest2).map (fun o => (String.mk [c, a], o))
        else (digitsToNat? rest).map (fun o => (String.mk [c], o))
      | [] => none
    else none

/-- `noteToMidi` from part_004: `-1` on failure. -/
def noteToMidi (note : String) : Int :=
  match parseNoteName note with
  | none => -1
  | some (name, octave) =>
    let noteIndex := jsIndexOf NOTES name
    if noteIndex = -1 then -1 else 12 * ((octave : Int) + 1) + noteIndex

/-- `midiToNote` from part_004.  All call sites pass a nonnegative value, on
which JS `%` agrees with `Int.emod` and `Math.floor` with `Int.fdiv`. -/
def midiToNote (midi : Int) : String :=
  let octave := midi.fdiv 12 - 1
  let noteIndex := (midi % 12).toNat
  NOTES.getD noteIndex "" ++ toString octave

/-- `getNoteFromFret` from part_004. -/
def getNoteFromFret (openStringNote : String) (fret : Nat) : String :=
  let startMidi := noteToMidi openStringNote
  if startMidi = -1 then "" else midiToNote (startMidi + fret)

/-- Association-list lookup modelling JS object property access `obj[k]`
(JS objects with string keys iterate in insertion order). -/
def assocFind {α : Type} : List (String × α) → String → Option α
  | [], _ => none
  | p :: rest, k => if p.1 = k then some p.2 else assocFind rest k

/-- `MAJOR_KEYS_DIATONIC` from `data/theory.ts`, in source insertion order. -/
def MAJOR_KEYS_DIATONIC : List (String × List (String × String)) :=
  [("C", [("I", "C"), ("ii", "Dm"), ("iii", "Em"), ("IV", "F"), ("V", "G"), ("vi", "Am"), ("vii", "Bdim")]),
   ("G", [("I", "G"), ("ii", "Am"), ("iii", "Bm"), ("IV", "C"), ("V", "D"), ("vi", "Em"), ("vii", "F#dim")]),
   ("D", [("I", "D"), ("ii", "Em"), ("iii", "F#m"), ("IV", "G"), ("V", "A"), ("vi", "Bm"), ("vii", "C#dim")]),
   ("A", [("I", "A"), ("ii", "Bm"), ("iii", "C#m"), ("IV", "D"), ("V", "E"), ("vi", "F#m"), ("vii", "G#dim")]),
   ("E", [("I", "E"), ("ii", "F#m"), ("iii", "G#m"), ("IV", "A"), ("V", "B"), ("vi", "C#m"), ("vii", "D#dim")]),
   ("B", [("I", "B"), ("ii", "C#m"), ("iii", "D#m"), ("IV", "E"), ("V", "F#"), ("vi", "G#m"), ("vii", "A#dim")]),
   ("F#", [("I", "F#"), ("ii", "G#m"), ("iii", "A#m"), ("IV", "B"), ("V", "C#"), ("vi", "D#m"), ("vii", "Fdim")]),
   ("C#", [("I", "C#"), ("ii", "D#m"), ("iii", "Fm"), ("IV", "F#"), ("V", "G#"), ("vi", "A#m"), ("vii", "Cdim")]),
   ("Ab", [("I", "Ab"), ("ii", "Bbm"), ("iii", "Cm"), ("IV", "Db"), ("V", "Eb"), ("vi", "Fm"), ("vii", "Gdim")]),
   ("Eb", [("I", "Eb"), ("ii", "Fm"), ("iii", "Gm"), ("IV", "Ab"), ("V", "Bb"), ("vi", "Cm"), ("vii", "Ddim")]),
   ("Bb", [("I", "Bb"), ("ii", "Cm"), ("iii", "Dm"), ("IV", "Eb"), ("V", "F"), ("vi", "Gm"), ("vii", "Adim")]),
   ("F", [("I", "F"), ("ii", "Gm"), ("iii", "Am"), ("IV", "Bb"), ("V", "C"), ("vi", "Dm"), ("vii", "Edim")])]

/-- `MINOR_KEYS_DIATONIC` from `data/theory.ts` (natural minor plus Dorian IV),
in source insertion order. -/
def MINOR_KEYS_DIATONIC : List (String × List (String × String)) :=
  [("Am", [("i", "Am"), ("ii", "Bdim"), ("III", "C"), ("iv", "Dm"), ("IV", "D"), ("v", "Em"), ("VI", "F"), ("VII", "G")]),
   ("Em", [("i", "Em"), ("ii", "F#dim"), ("III", "G"), ("iv", "Am"), ("IV", "A"), ("v", "Bm"), ("VI", "C"), ("VII", "D")]),
   ("Bm", [("i", "Bm"), ("ii", "C#dim"), ("III", "D"), ("iv", "Em"), ("IV", "E"), ("v", "F#m"), ("VI", "G"), ("VII", "A")]),
   ("F#m", [("i", "F#m"), ("ii", "G#dim"), ("III", "A"), ("iv", "Bm"), ("IV", "B"), ("v", "C#m"), ("VI", "D"), ("VII", "E")]),
   ("C#m", [("i", "C#m"), ("ii", "D#dim"), ("III", "E"), ("iv", "F#m"), ("IV", "F#"), ("v", "G#m"), ("VI", "A"), ("VII", "B")]),
   ("G#m", [("i", "G#m"), ("ii", "A#dim"), ("III", "B"), ("iv", "C#m"), ("IV", "C#"), ("v", "D#m"), ("VI", "E"), ("VII", "F#")]),
   ("D#m", [("i", "D#m"), ("ii", "Fdim"), ("III", "F#"), ("iv", "G#m"), ("IV", "G#"), ("v", "A#m"), ("VI", "B"), ("VII", "C#")]),
   ("Bbm", [("i", "Bbm"), ("ii", "Cdim"), ("III", "Db"), ("iv", "Ebm"), ("IV", "Eb"), ("v", "Fm"), ("VI", "Gb"), ("VII", "Ab")]),
   ("Fm", [("i", "Fm"), ("ii", "Gdim"), ("III", "Ab"), ("iv", "Bbm"), ("IV", "Bb"), ("v", "Cm"), ("VI", "Db"), ("VII", "Eb")]),
   ("Cm", [("i", "Cm"), ("ii", "Ddim"), ("III", "Eb"), ("iv", "Fm"), ("IV", "F"), ("v", "Gm"), ("VI", "Ab"), ("VII", "Bb")]),
   ("Gm", [("i", "Gm"), ("ii", "Adim"), ("III", "Bb"), ("iv", "Cm"), ("IV", "C"), ("v", "Dm"), ("VI", "Eb"), ("VII", "F")]),
   ("Dm", [("i", "Dm"), ("ii", "Edim"), ("III", "F"), ("iv", "Gm"), ("IV", "G"), ("v", "Am"), ("VI", "Bb"), ("VII", "C")])]

/-- A weighted transition of the successor engine (`Transition` in `types.ts`). -/
structure Transition where
  «to» : String
  weight : Nat
  isBorrowed : Bool := false
deriving DecidableEq, Repr

/-- `PROGRESSION_RULES_MAJOR` from `data/theory.ts`, in source insertion order. -/
def PROGRESSION_RULES_MAJOR : List (String × List Transition) :=
  [("I", [⟨"I", 2, false⟩, ⟨"IV", 8, false⟩, ⟨"V", 7, false⟩, ⟨"ii", 6, false⟩, ⟨"vi", 5, false⟩,
          ⟨"iv", 5, true⟩, ⟨"V/V", 4, false⟩, ⟨"♭VII", 4, true⟩, ⟨"iii", 3, false⟩, ⟨"V/iii", 3, false⟩]),
   ("ii", [⟨"ii", 2, false⟩, ⟨"V", 10, false⟩, ⟨"vii", 4, false⟩, ⟨"IV", 2, false⟩]),
   ("iii", [⟨"iii", 2, false⟩, ⟨"vi", 9, false⟩, ⟨"IV", 7, false⟩, ⟨"ii", 4, false⟩, ⟨"V/vi", 6, false⟩]),
   ("IV", [⟨"IV", 2, false⟩, ⟨"V", 9, false⟩, ⟨"iv", 7, true⟩, ⟨"V/V", 6, false⟩, ⟨"I", 5, false⟩, ⟨"ii", 4, false⟩]),
   ("V", [⟨"V", 2, false⟩, ⟨"I", 12, false⟩, ⟨"vi", 6, false⟩, ⟨"V/ii", 3, false⟩, ⟨"V/vi", 3, false⟩]),
   ("vi", [⟨"vi", 2, false⟩, ⟨"ii", 8, false⟩, ⟨"IV", 8, false⟩, ⟨"V", 5, false⟩, ⟨"V/ii", 4, false⟩]),
   ("vii", [⟨"vii", 2, false⟩, ⟨"I", 9, false⟩, ⟨"iii", 4, false⟩]),
   ("V/V", [⟨"V/V", 1, false⟩, ⟨"V", 12, false⟩]),
   ("V/ii", [⟨"V/ii", 1, false⟩, ⟨"ii", 12, false⟩]),
   ("V/vi", [⟨"V/vi", 1, false⟩, ⟨"vi", 12, false⟩]),
   ("V/iii", [⟨"V/iii", 1, false⟩, ⟨"iii", 12, false⟩]),
   ("iv", [⟨"iv", 2, false⟩, ⟨"I", 8, false⟩, ⟨"V", 6, false⟩]),
   ("♭VII", [⟨"♭VII", 2, false⟩, ⟨"I", 8, false⟩, ⟨"IV", 6, false⟩])]

/-- `PROGRESSION_RULES_MINOR` from `data/theory.ts`, in source insertion order. -/
def PROGRESSION_RULES_MINOR : List (String × List Transition) :=
  [("i", [⟨"i", 2, false⟩, ⟨"VI", 9, false⟩, ⟨"iv", 8, false⟩, ⟨"V", 7, false⟩, ⟨"v", 6, false⟩,
          ⟨"VII", 5, false⟩, ⟨"III", 4, false⟩, ⟨"ii", 3, false⟩]),
   ("ii", [⟨"ii", 2, false⟩, ⟨"V", 10, false⟩, ⟨"v", 9, false⟩, ⟨"VII", 5, false⟩]),
   ("III", [⟨"III", 2, false⟩, ⟨"VI", 9, false⟩, ⟨"iv", 8, false⟩]),
   ("iv", [⟨"iv", 2, false⟩, ⟨"V", 9, false⟩, ⟨"v", 8, false⟩, ⟨"VII", 6, false⟩, ⟨"i", 4, false⟩]),
   ("v", [⟨"v", 2, false⟩, ⟨"i", 10, false⟩, ⟨"VI", 5, false⟩]),
   ("V", [⟨"V", 2, false⟩, ⟨"i", 12, false⟩, ⟨"VI", 6, false⟩]),
   ("VI", [⟨"VI", 2, false⟩, ⟨"ii", 8, false⟩, ⟨"iv", 7, false⟩, ⟨"V", 6, false⟩, ⟨"v", 5, false⟩]),
   ("VII", [⟨"VII", 2, false⟩, ⟨"i", 10, false⟩, ⟨"III", 8, false⟩])]

/-- JS `key.endsWith('m')`: a one-character suffix test. -/
def keyEndsWithM (s : String) : Bool :=
  s.toList.getLast? == some 'm'

/-- JS `key.slice(0, -1)`. -/
def sliceDropLast (s : String) : String :=
  String.mk s.toList.dropLast

/-- JS `roman.startsWith('V/')`. -/
def startsWithVslash (s : String) : Bool :=
  match s.toList with
  | 'V' :: '/' :: _ => true
  | _ => false

/-- JS `roman.split('/')[1]`: the text between the first and second `/`. -/
def afterSlash (s : String) : String :=
  String.mk (((s.toList.dropWhile (· ≠ '/')).drop 1).takeWhile (· ≠ '/'))

/-- `realizeRomanNumeral` from part_004. -/
def realizeRomanNumeral (roman key : String) : Option String :=
  if keyEndsWithM key then
    match assocFind MINOR_KEYS_DIATONIC key with
    | none => none
    | some minorChords =>
      if roman = "V" then
        match assocFind minorChords "v" with
        | some v_chord =>
          match parseChordName v_chord with
          | some parsed =>
            if parsed.quality = "m" then some parsed.root
            else assocFind minorChords roman
          | none => assocFind minorChords roman
        | none => assocFind minorChords roman
      else assocFind minorChords roman
  else
    match assocFind MAJOR_KEYS_DIATONIC key with
    | none => none
    | some keyChordsMajor =>
      if startsWithVslash roman then
        match assocFind keyChordsMajor (afterSlash roman) with
        | none => none
        | some targetChordName =>
          match parseChordName targetChordName with
          | none => none
          | some targetParsed =>
            let targetRootIndex := jsIndexOf NOTES targetParsed.root
            if targetRootIndex = -1 then none
            else some (NOTES.getD (((targetRootIndex + 7) % 12).toNat) "")
      else if roman = "iv" then
        (assocFind MINOR_KEYS_DIATONIC (key ++ "m")).bind (fun p => assocFind p "iv")
      else if roman = "♭VII" then
        (assocFind MINOR_KEYS_DIATONIC (key ++ "m")).bind (fun p => assocFind p "VII")
      else assocFind keyChordsMajor roman

/-- `for (roman in obj) if (obj[roman] === chordName) return roman`:
first key (in insertion order) whose value is the chord. -/
def assocFindByValue : List (String × String) → String → Option String
  | [], _ => none
  | p :: rest, v => if p.2 = v then some p.1 else assocFindByValue rest v

/-- The non-diatonic scan of `findFunctionOfChord` (major keys): walk the keys
of `PROGRESSION_RULES_MAJOR` in insertion order, skipping diatonic functions. -/
def findNonDiatonicFunction (keyChords : List (String × String)) (key chordName : String) :
    List String → Option String
  | [] => none
  | func :: rest =>
    if (assocFind keyChords func).isSome then
      findNonDiatonicFunction keyChords key chordName rest
    else
      let realizedChordName := realizeRomanNumeral func key
      if realizedChordName = some chordName then some func
      else
        match parseChordName (realizedChordName.getD ""), parseChordName chordName with
        | some parsedRealized, some parsedCurrent =>
          if parsedRealized.root = parsedCurrent.root ∧ startsWithVslash func ∧
              (parsedCurrent.quality = "" ∨ parsedCurrent.quality = "7") then
            some func
          else findNonDiatonicFunction keyChords key chordName rest
        | _, _ => findNonDiatonicFunction keyChords key chordName rest

/-- `findFunctionOfChord` from part_004. -/
def findFunctionOfChord (chordName key : String) : Option String :=
  if keyEndsWithM key then
    match assocFind MINOR_KEYS_DIATONIC key with
    | none => none
    | some keyChords =>
      match assocFindByValue keyChords chordName with
      | some roman => some roman
      | none =>
        match assocFind keyChords "v" with
        | some v_chord =>
          match parseChordName v_chord, parseChordName chordName with
          | some parsedV, some parsedCurrent =>
            if parsedV.root = parsedCurrent.root ∧
                (parsedCurrent.quality = "" ∨ parsedCurrent.quality = "7") then
              some "V"
            else none
          | _, _ => none
        | none => none
  else
    match assocFind MAJOR_KEYS_DIATONIC key with
    | none => none
    | some keyChords =>
      match assocFindByValue keyChords chordName with
      | some roman => some roman
      | none =>
        findNonDiatonicFunction keyChords key chordName (PROGRESSION_RULES_MAJOR.map Prod.fst)

/-- The comparator `(a, b) => b.weight - a.weight` of `getCommonProgressions`:
`a` may precede `b` when its weight is at least `b`'s. -/
def weightGE (a b : Transition) : Prop := b.weight ≤ a.weight

instance : DecidableRel weightGE := fun a b => inferInstanceAs (Decidable (b.weight ≤ a.weight))

instance : IsTotal Transition weightGE :=
  ⟨fun a b => by unfold weightGE; exact le_total b.weight a.weight⟩

instance : IsTrans Transition weightGE :=
  ⟨fun _ _ _ h1 h2 => by unfold weightGE at *; exact le_trans h2 h1⟩

/-- In-place update of `obj[k]` (every occurrence of the key, as JS property
assignment would see a single slot; the concrete tables have unique keys). -/
def assocUpdate {α : Type} : List (String × α) → String → α → List (String × α)
  | [], _, _ => []
  | p :: rest, k, v => (if p.1 = k then (p.1, v) else p) :: assocUpdate rest k v

/-- `[...new Set(list)]`: de-duplication keeping first occurrences. -/
def jsSetDedup (l : List String) : List String :=
  l.foldl (fun acc x => if x ∈ acc then acc else acc ++ [x]) []

/-- `getCommonProgressions` from part_004, with the mutable module state made
explicit: the call receives the two rule tables and returns the suggestion
list together with the tables as they stand after the call (JS
`Array.prototype.sort` sorts the looked-up rules array in place). -/
def getCommonProgressionsFull (rulesMajor rulesMinor : List (String × List Transition))
    (fromChord key : String) (allowBorrowed : Bool) :
    List String × List (String × List Transition) × List (String × List Transition) :=
  let isMinorKey := keyEndsWithM key
  let progressionRules := if isMinorKey then rulesMinor else rulesMajor
  match findFunctionOfChord fromChord key with
  | none => ([], rulesMajor, rulesMinor)
  | some currentFunction =>
    match assocFind progressionRules currentFunction with
    | none => ([], rulesMajor, rulesMinor)
    | some rules =>
      let sorted := List.insertionSort weightGE rules
      let newRules := assocUpdate progressionRules currentFunction sorted
      let transitions := if isMinorKey then sorted
        else sorted.filter (fun rule => allowBorrowed || !rule.isBorrowed)
      let nextChords := transitions.filterMap (fun t =>
        if t.to = currentFunction then some fromChord else realizeRomanNumeral t.to key)
      (jsSetDedup nextChords,
       if isMinorKey then (rulesMajor, newRules) else (newRules, rulesMinor))

/-- `getCommonProgressions` applied to the tables as loaded from
`data/theory.ts`, observing only the returned suggestion list. -/
def getCommonProgressions (fromChord key : String) (allowBorrowed : Bool) : List String :=
  (getCommonProgressionsFull PROGRESSION_RULES_MAJOR PROGRESSION_RULES_MINOR
    fromChord key allowBorrowed).1

/-- The diatonic Roman numerals of the major mode (spec data model). -/
def majorRomans : List String := ["I", "ii", "iii", "IV", "V", "vi", "vii"]

/-- The diatonic Roman numerals of the minor mode (spec data model), including
the harmonic-minor `V`. -/
def minorRomans : List String := ["i", "ii", "III", "iv", "v", "V", "VI", "VII"]

end ProgressionExplorer

namespace ProgressionExplorer

/-- C1: from chord `C` in key `C` major with `allowBorrowed = false`, the
suggestion function returns the duplicate-free list
`[F, G, Dm, Am, D, Em, B, C]`: its first four elements are `F, G, Dm, Am` and
the self-loop chord `C` appears later (at index 7).  The order realises the
stable descending-weight sort of the `I`-row transitions with borrowed entries
removed. -/
theorem c1_suggestions_from_C :
    getCommonProgressions "C" "C" false = ["F", "G", "Dm", "Am", "D", "Em", "B", "C"] ∧
    (getCommonProgressions "C" "C" false).Nodup ∧
    (getCommonProgressions "C" "C" false).take 4 = ["F", "G", "Dm", "Am"] ∧
    (getCommonProgressions "C" "C" false).indexOf "C" = 7 := by
  refine ⟨by decide, by decide, by decide, by decide⟩

/-- C2: for every key of the diatonic tables and every diatonic Roman numeral
of its mode (including `V` in minor, realised as the harmonic-minor major
triad), realising the numeral and then analysing the resulting chord symbol in
the same key recovers the numeral:
`findFunctionOfChord (realizeRomanNumeral r K) K = some r`. -/
theorem c2_realize_functionOf_roundtrip :
    (∀ k ∈ MAJOR_KEYS_DIATONIC.map Prod.fst, ∀ r ∈ majorRomans,
      (realizeRomanNumeral r k).bind (fun c => findFunctionOfChord c k) = some r) ∧
    (∀ k ∈ MINOR_KEYS_DIATONIC.map Prod.fst, ∀ r ∈ minorRomans,
      (realizeRomanNumeral r k).bind (fun c => findFunctionOfChord c k) = some r) := by
  constructor
  · decide
  · decide

/-- Witness for C2 at the concrete inputs `(C major, I)` and `(A minor, V)`. -/
theorem c2_realize_functionOf_roundtrip_witness :
    (realizeRomanNumeral "I" "C").bind (fun c => findFunctionOfChord c "C") = some "I" ∧
    (realizeRomanNumeral "V" "Am").bind (fun c => findFunctionOfChord c "Am") = some "V" :=
  ⟨c2_realize_functionOf_roundtrip.1 "C" (by decide) "I" (by decide),
   c2_realize_functionOf_roundtrip.2 "Am" (by decide) "V" (by decide)⟩

/-- The `oldKey.endsWith('m') ? oldKey.slice(0, -1) : oldKey` tonic extraction
of `transposeChordSequence`. -/
def stripTonic (key : String) : String :=
  if keyEndsWithM key then sliceDropLast key else key

/-- The chromatic-fallback closure `fallbackTranspose` of
`transposeChordSequence` in part_004 (its captured `oldKeyTonic` and
`newKeyTonic` are passed explicitly). -/
def fallbackTranspose (oldKeyTonic newKeyTonic chord : String) : String :=
  match parseChordName oldKeyTonic, parseChordName newKeyTonic with
  | some oldKeyParsed, some newKeyParsed =>
    let oldKeyRootIndex := jsIndexOf NOTES oldKeyParsed.root
    let newKeyRootIndex := jsIndexOf NOTES newKeyParsed.root
    if oldKeyRootIndex = -1 ∨ newKeyRootIndex = -1 then chord
    else
      let interval := newKeyRootIndex - oldKeyRootIndex
      match parseChordName chord with
      | none => chord
      | some parsed =>
        let rootIndex := jsIndexOf NOTES parsed.root
        if rootIndex = -1 then chord
        else
          NOTES.getD (((rootIndex + interval + 12) % 12).toNat) "" ++ parsed.quality
  | _, _ => chord

/-- `minorToMajorMap` of `transposeChordSequence`. -/
def minorToMajorMap : List (String × String) :=
  [("i", "I"), ("ii", "ii"), ("III", "iii"), ("iv", "IV"),
   ("v", "V"), ("V", "V"), ("VI", "vi"), ("VII", "vii")]

/-- `majorToMinorMap` of `transposeChordSequence`. -/
def majorToMinorMap : List (String × String) :=
  [("I", "i"), ("ii", "ii"), ("iii", "III"), ("IV", "iv"),
   ("V", "V"), ("vi", "VI"), ("vii", "VII")]

/-- `transposeChordSequence` from part_004. -/
def transposeChordSequence (sequence : List String) (oldKey newKey : String) : List String :=
  let oldKeyTonic := stripTonic oldKey
  let newKeyTonic := stripTonic newKey
  let oldKeyIsMinor := keyEndsWithM oldKey
  let newKeyIsMinor := keyEndsWithM newKey
  if oldKeyIsMinor = newKeyIsMinor then
    sequence.map (fallbackTranspose oldKeyTonic newKeyTonic)
  else
    sequence.map (fun chord =>
      match findFunctionOfChord chord oldKey with
      | none => fallbackTranspose oldKeyTonic newKeyTonic chord
      | some roman =>
        let targetRoman :=
          if oldKeyIsMinor then (assocFind minorToMajorMap roman).getD roman
          else (assocFind majorToMinorMap roman).getD roman
        match realizeRomanNumeral targetRoman newKey with
        | some newChord => newChord
        | none => fallbackTranspose oldKeyTonic newKeyTonic chord)

/-- Modelled from the spec (§4.1): the enharmonic folding
`Db→C#, Eb→D#, Gb→F#, Ab→G#, Bb→A#` the spec's chord parser performs for
pitch-class computation.  (Used only to state the spec's chromatic shift;
the code's `fallbackTranspose` performs no such folding.) -/
def specFoldFlat (root : String) : String :=
  if root = "Db" then "C#"
  else if root = "Eb" then "D#"
  else if root = "Gb" then "F#"
  else if root = "Ab" then "G#"
  else if root = "Bb" then "A#"
  else root

/-- Modelled from the spec (§3, §4.1): the pitch class of a chord root, with
flat spellings folded; `-1` when the root is unrecognised. -/
def specRootPc (root : String) : Int :=
  jsIndexOf NOTES (specFoldFlat root)

/-- Modelled from the spec (§4.8): the chromatic shift of one chord — move the
root's pitch class by `delta` modulo 12, preserving the quality. -/
def specChromaticShift (delta : Int) (chord : String) : Option String :=
  (parseChordName chord).bind fun parsed =>
    let pc := specRootPc parsed.root
    if pc = -1 then none
    else some (NOTES.getD (((pc + delta) % 12).toNat) "" ++ parsed.quality)

/-- Pitch class of a key's tonic as the code computes it: parse the stripped
tonic and take `NOTES.indexOf` of the raw (unfolded) root; `-1` when the
tonic fails to parse or is flat-spelled. -/
def tonicPc (key : String) : Int :=
  match parseChordName (stripTonic key) with
  | some p => jsIndexOf NOTES p.root
  | none => -1

/-- Pitch class of a chord's root as the code computes it (no folding). -/
def codeRootPc (chord : String) : Int :=
  match parseChordName chord with
  | some p => jsIndexOf NOTES p.root
  | none => -1

/-- C4 counterexample: same-mode transposition is not the chromatic shift on
flat spellings.  Transposing `Bb` from `C` major to `D` major returns `Bb`
unchanged (its root is not in the sharp-only `NOTES` table), while the spec's
chromatic shift by 2 semitones gives `C`; likewise any chord is returned
unchanged when a key tonic is flat-spelled (`Ab → Bb` leaves `C` fixed where
the chromatic shift gives `D`). -/
theorem c4_counterexample :
    transposeChordSequence ["Bb"] "C" "D" = ["Bb"] ∧
    specChromaticShift (tonicPc "D" - tonicPc "C") "Bb" = some "C" ∧
    transposeChordSequence ["Bb"] "C" "D" ≠ ["C"] ∧
    transposeChordSequence ["C"] "Ab" "Bb" = ["C"] ∧
    specChromaticShift 2 "C" = some "D" ∧
    transposeChordSequence ["C"] "Ab" "Bb" ≠ ["D"] := by
  refine ⟨by decide, by decide, by decide, by decide, by decide, by decide⟩

/-- A successful JS `indexOf` pinpoints a member of the list. -/
theorem jsIndexOfAux_ne_neg_one_mem {x : String} :
    ∀ (l : List String) (n : Int), jsIndexOfAux x l n ≠ -1 → x ∈ l := by
  intro l
  induction l with
  | nil => intro n h; exact absurd rfl h
  | cons y ys ih =>
    intro n h
    by_cases hy : y = x
    · exact hy ▸ List.mem_cons_self y ys
    · have : jsIndexOfAux x (y :: ys) n = jsIndexOfAux x ys (n + 1) := by
        simp [jsIndexOfAux, hy]
      exact List.mem_cons_of_mem y (ih (n + 1) (this ▸ h))

/-- A successful JS `indexOf` pinpoints a member of the list. -/
theorem jsIndexOf_ne_neg_one_mem {l : List String} {x : String}
    (h : jsIndexOf l x ≠ -1) : x ∈ l :=
  jsIndexOfAux_ne_neg_one_mem l 0 h

/-- Sharp spellings are fixed points of the spec's enharmonic folding. -/
theorem specFoldFlat_of_mem_NOTES : ∀ r ∈ NOTES, specFoldFlat r = r := by decide

/-- Core of the amended C4: with both tonics recognised (sharp-spelled), the
code's chromatic fallback agrees with the spec's chromatic shift on every
chord whose root is recognised, and returns every other chord unchanged. -/
theorem fallbackTranspose_eq_specShift (oldKey newKey chord : String)
    (hold : tonicPc oldKey ≠ -1) (hnew : tonicPc newKey ≠ -1) :
    fallbackTranspose (stripTonic oldKey) (stripTonic newKey) chord =
      if codeRootPc chord = -1 then chord
      else (specChromaticShift (tonicPc newKey - tonicPc oldKey) chord).getD chord := by
  cases hpo : parseChordName (stripTonic oldKey) with
  | none => unfold tonicPc at hold; rw [hpo] at hold; exact absurd rfl hold
  | some po =>
    cases hpn : parseChordName (stripTonic newKey) with
    | none => unfold tonicPc at hnew; rw [hpn] at hnew; exact absurd rfl hnew
    | some pn =>
      have htold : tonicPc oldKey = jsIndexOf NOTES po.root := by
        unfold tonicPc; rw [hpo]
      have htnew : tonicPc newKey = jsIndexOf NOTES pn.root := by
        unfold tonicPc; rw [hpn]
      rw [htold] at hold
      rw [htnew] at hnew
      unfold fallbackTranspose codeRootPc specChromaticShift specRootPc
      rw [htold, htnew]
      simp only [hpo, hpn]
      rw [if_neg (by push_neg; exact ⟨hold, hnew⟩)]
      cases hpc : parseChordName chord with
      | none => simp
      | some parsed =>
        simp only [Option.some_bind]
        by_cases hroot : jsIndexOf NOTES parsed.root = -1
        · rw [if_pos hroot, if_pos hroot]
        · rw [if_neg hroot, if_neg hroot,
            specFoldFlat_of_mem_NOTES parsed.root (jsIndexOf_ne_neg_one_mem hroot),
            if_neg hroot]
          simp only [Option.getD_some]
          have h12 : jsIndexOf NOTES parsed.root +
                (jsIndexOf NOTES pn.root - jsIndexOf NOTES po.root) + 12
              = jsIndexOf NOTES parsed.root +
                (jsIndexOf NOTES pn.root - jsIndexOf NOTES po.root) + 12 * 1 := by ring
          rw [h12, Int.add_mul_emod_self_left]

/-- C4 amended: for keys of the same mode whose tonics the code recognises
(sharp-spelled, as listed in `NOTES`), `transposeChordSequence` applies the
spec's chromatic shift `newRootPc - oldRootPc` (mod 12) to every chord whose
root is sharp-spelled, preserving its quality — and returns every chord with
an unrecognised (e.g. flat-spelled) root unchanged. -/
theorem c4_amended_same_mode_chromatic (sequence : List String) (oldKey newKey : String)
    (hmode : keyEndsWithM oldKey = keyEndsWithM newKey)
    (hold : tonicPc oldKey ≠ -1) (hnew : tonicPc newKey ≠ -1) :
    transposeChordSequence sequence oldKey newKey =
      sequence.map (fun chord =>
        if codeRootPc chord = -1 then chord
        else (specChromaticShift (tonicPc newKey - tonicPc oldKey) chord).getD chord) := by
  unfold transposeChordSequence
  rw [if_pos hmode]
  induction sequence with
  | nil => rfl
  | cons c cs ih =>
    simp only [List.map_cons, List.cons.injEq]
    exact ⟨fallbackTranspose_eq_specShift oldKey newKey c hold hnew, by
      simpa using ih⟩

/-- Witness for C4 amended: transposing `[C#m7, Bb]` from `C` major to `D`
major shifts the sharp-rooted chord chromatically (`C#m7 → D#m7`) and leaves
the flat-rooted `Bb` unchanged. -/
theorem c4_amended_same_mode_chromatic_witness :
    transposeChordSequence ["C#m7", "Bb"] "C" "D" =
      ["C#m7", "Bb"].map (fun chord =>
        if codeRootPc chord = -1 then chord
        else (specChromaticShift (tonicPc "D" - tonicPc "C") chord).getD chord) ∧
    transposeChordSequence ["C#m7", "Bb"] "C" "D" = ["D#m7", "Bb"] :=
  ⟨c4_amended_same_mode_chromatic ["C#m7", "Bb"] "C" "D" (by decide) (by decide) (by decide),
   by decide⟩

/-- C5 counterexample: the cross-mode transposition of `['Am','F','C','G']`
from `A` minor to `C` major is not `['C','Dm','Em','G']`: `F` is `VI` in
A minor, which the fixed cross-mode table sends to `vi`, realised as `Am` in
C major (not `Dm`), and `G` is `VII`, sent to `vii`, realised as `Bdim`
(not `G`). -/
theorem c5_counterexample :
    transposeChordSequence ["Am", "F", "C", "G"] "Am" "C" ≠ ["C", "Dm", "Em", "G"] := by
  decide

/-- C5 amended: `transposeChordSequence(['Am','F','C','G'],'Am','C')` yields
`['C','Am','Em','Bdim']`, which is exactly the function-preserving realisation
of the fixed cross-mode table applied to each chord's function in A minor
(`Am = i → I → C`, `F = VI → vi → Am`, `C = III → iii → Em`,
`G = VII → vii → Bdim`), with chromatic fallback unused since every input is
diatonic. -/
theorem c5_amended_cross_mode :
    transposeChordSequence ["Am", "F", "C", "G"] "Am" "C" = ["C", "Am", "Em", "Bdim"] ∧
    (["Am", "F", "C", "G"].map (fun chord =>
      ((findFunctionOfChord chord "Am").bind (fun roman =>
        (assocFind minorToMajorMap roman).bind (fun target =>
          realizeRomanNumeral target "C"))).getD
        (fallbackTranspose (stripTonic "Am") (stripTonic "C") chord)))
      = ["C", "Am", "Em", "Bdim"] ∧
    findFunctionOfChord "Am" "Am" = some "i" ∧
    findFunctionOfChord "F" "Am" = some "VI" ∧
    findFunctionOfChord "C" "Am" = some "III" ∧
    findFunctionOfChord "G" "Am" = some "VII" ∧
    realizeRomanNumeral "vi" "C" = some "Am" ∧
    realizeRomanNumeral "vii" "C" = some "Bdim" := by
  refine ⟨by decide, by decide, by decide, by decide, by decide, by decide, by decide, by decide⟩

/-- JS `haystack.includes(needle)` (substring test), by scanning suffixes. -/
def includesAux (pat : List Char) : List Char → Bool
  | [] => pat.isPrefixOf []
  | c :: rest => pat.isPrefixOf (c :: rest) || includesAux pat rest

/-- JS `haystack.includes(needle)`. -/
def strIncludes (s pat : String) : Bool :=
  includesAux pat.toList s.toList

/-- `NOTE_TO_MIDI_VAL` from `logger.ts`. -/
def NOTE_TO_MIDI_VAL : List (String × Nat) :=
  [("C", 0), ("C#", 1), ("Db", 1), ("D", 2), ("D#", 3), ("Eb", 3), ("E", 4), ("F", 5),
   ("F#", 6), ("Gb", 6), ("G", 7), ("G#", 8), ("Ab", 8), ("A", 9), ("A#", 10), ("Bb", 10), ("B", 11)]

/-- `noteToMidi` from `logger.ts`: the anchored regex `^([A-G][#b]?)([0-9])$`
(single-digit octave), then the `NOTE_TO_MIDI_VAL` lookup. -/
def loggerNoteToMidi (note : String) : Option Nat :=
  match note.toList with
  | c :: [d] =>
    if ('A' ≤ c ∧ c ≤ 'G') ∧ d.isDigit then
      (assocFind NOTE_TO_MIDI_VAL (String.mk [c])).map
        (fun v => 12 * (d.toNat - '0'.toNat + 1) + v)
    else none
  | c :: a :: [d] =>
    if ('A' ≤ c ∧ c ≤ 'G') ∧ (a = '#' ∨ a = 'b') ∧ d.isDigit then
      (assocFind NOTE_TO_MIDI_VAL (String.mk [c, a])).map
        (fun v => 12 * (d.toNat - '0'.toNat + 1) + v)
    else none
  | _ => none

/-- A note-on/note-off event of the serialiser (`MidiEvent` in `logger.ts`). -/
structure MidiEvent where
  tick : Int
  type : Bool
  pitch : Nat
deriving DecidableEq, Repr

/-- The `'on'` tag of a `MidiEvent`. -/
def evOn : Bool := true

/-- The `'off'` tag of a `MidiEvent`. -/
def evOff : Bool := false

/-- The comparator `(a, b) => a.tick - b.tick` of the serialiser's event sort. -/
def tickLE (a b : MidiEvent) : Prop := a.tick ≤ b.tick

instance : DecidableRel tickLE := fun a b => inferInstanceAs (Decidable (a.tick ≤ b.tick))

instance : IsTotal MidiEvent tickLE :=
  ⟨fun a b => by unfold tickLE; exact le_total a.tick b.tick⟩

instance : IsTrans MidiEvent tickLE :=
  ⟨fun _ _ _ h1 h2 => by unfold tickLE at *; exact le_trans h1 h2⟩

/-- A strum-beat event type (`'down' | 'up' | 'rest'`). -/
inductive BeatType
  | down
  | up
  | strumRest
deriving DecidableEq, Repr

/-- A beat of a strumming pattern (`StrumBeat`). -/
structure StrumBeat where
  type : BeatType
  duration : ℚ
deriving DecidableEq, Repr

/-- A strumming pattern (`StrummingPattern` in `strumming.ts`). -/
structure StrumPattern where
  name : String
  bpm : ℚ
  beatsPerMeasure : Nat
  timeSignature : String
  beats : List StrumBeat
deriving DecidableEq, Repr

/-- An arpeggio pattern (`ArpeggioPattern` in `strumming.ts`); an empty
`noteOrder` marks the pattern as scalable. -/
structure ArpeggioPattern where
  name : String
  bpm : ℚ
  beatsPerMeasure : Nat
  timeSignature : String
  noteOrder : List Nat
deriving DecidableEq, Repr

/-- A pattern as returned by `getPatternById`: discriminated in the source by
the presence of the `beats` (strum) or `noteOrder` (arpeggio) field. -/
inductive Pattern
  | strum (p : StrumPattern)
  | arpeggio (p : ArpeggioPattern)
deriving DecidableEq, Repr

/-- A progression entry handed to the serialiser (`ProgressionChord`). -/
structure ProgressionChord where
  chord : String
  voicingIndex : Nat
  strumPatternId : Option String := none
  arpeggioPatternId : Option String := none
deriving DecidableEq, Repr

/-- A resolved voicing note (`ChordVoicing` in part_004). -/
structure ChordVoicing where
  note : String
  stringIndex : Nat
deriving DecidableEq, Repr

/-- A fret entry of a voicing: a number or `'x'` (muted). -/
inductive Fret
  | x
  | fret (n : Nat)
deriving DecidableEq, Repr

/-- A catalogue voicing; the resolver reads only its `frets` (the optional
barre data of the source record is not consulted). -/
structure VoicingData where
  frets : List Fret
deriving DecidableEq, Repr, Inhabited

/-- `getVoicingForChord` from part_004, with the instrument dependency made
explicit as the chord catalogue and tuning it closes over. -/
def getVoicingForChord (chordDB : List (String × List VoicingData)) (tuning : List String)
    (chordName : String) (voicingIndex : Nat) : List ChordVoicing :=
  match assocFind chordDB chordName with
  | none => []
  | some allVoicings =>
    if allVoicings.length = 0 then []
    else
      let voicingData :=
        match allVoicings.get? voicingIndex with
        | some v => v
        | none => allVoicings.getD 0 ⟨[]⟩
      (voicingData.frets.enum.map (fun p =>
        match p.2 with
        | Fret.x => []
        | Fret.fret n => [(⟨getNoteFromFret (tuning.getD p.1 "") n, p.1⟩ : ChordVoicing)])).flatten

/-- JS `Math.round q` on an exact rational, `⌊q + 1/2⌋`, computed on the
numerator and denominator (`Int.fdiv` is the flooring division) so that
kernel evaluation succeeds; `jsRound_eq_floor` certifies the equation. -/
def jsRound (q : ℚ) : Int :=
  (2 * q.num + q.den).fdiv (2 * q.den)

/-- `jsRound` is the rounding function it claims to be. -/
theorem jsRound_eq_floor (q : ℚ) : jsRound q = ⌊q + 1 / 2⌋ := by
  have hden : (0 : ℚ) < (q.den : ℚ) := by exact_mod_cast q.pos
  have hq : q + 1 / 2 = ((2 * q.num + (q.den : Int) : Int) : ℚ) / (((2 * q.den : ℕ) : ℕ) : ℚ) := by
    have hnum : (q.num : ℚ) = q * (q.den : ℚ) := by
      nth_rewrite 2 [← Rat.num_div_den q]
      rw [div_mul_cancel₀ _ (ne_of_gt hden)]
    rw [eq_div_iff (by positivity)]
    push_cast
    rw [hnum]
    ring
  rw [hq, Rat.floor_intCast_div_natCast]
  unfold jsRound
  rw [Int.fdiv_eq_ediv _ (by positivity)]
  norm_num

/-- The scalable-arpeggio materialisation inlined in `exportProgressionToMidi`
(`logger.ts` lines 152–164): an empty `noteOrder` is regenerated from the
voicing's sounded string indices, descending for names containing
`"Ascending"` (low-pitched string first) and ascending otherwise. -/
def arpeggioNoteOrderMaterialized (arp : ArpeggioPattern) (voicing : List ChordVoicing) :
    List Nat :=
  if arp.noteOrder.length = 0 then
    let voicedStringIndexes := voicing.map (·.stringIndex)
    if strIncludes arp.name "Ascending" then
      List.insertionSort (fun a b : Nat => b ≤ a) voicedStringIndexes
    else
      List.insertionSort (fun a b : Nat => a ≤ b) voicedStringIndexes
  else arp.noteOrder

/-- The arpeggio branch of `exportProgressionToMidi`: events for one chord and
the advanced tick counter. -/
def arpeggioChordEvents (arp : ArpeggioPattern) (voicing : List ChordVoicing)
    (currentTick : Int) : List MidiEvent × Int :=
  let noteOrder := arpeggioNoteOrderMaterialized arp voicing
  let ticksPerMeasure : Nat := arp.beatsPerMeasure * 480
  let numNotes := noteOrder.length
  if numNotes = 0 then ([], currentTick)
  else
    let ticksPerNote : Nat := ticksPerMeasure / numNotes
    ((noteOrder.enum.map (fun p =>
      match voicing.find? (fun v => v.stringIndex == p.2) with
      | some noteInfo =>
        match loggerNoteToMidi noteInfo.note with
        | some pitch =>
          if pitch ≠ 0 then
            let startTick := currentTick + (p.1 : Int) * ticksPerNote
            [⟨startTick, evOn, pitch⟩, ⟨startTick + ticksPerNote, evOff, pitch⟩]
          else []
        | none => []
      | none => [])).flatten,
     currentTick + ticksPerMeasure)

/-- The per-beat loop of the strum branch of `exportProgressionToMidi`,
threading `tickInMeasure`. -/
def strumBeatEvents (midiNotes : List Nat) (currentTick ticksPerMeasure : Int) :
    List StrumBeat → Int → List MidiEvent
  | [], _ => []
  | beat :: rest, tickInMeasure =>
    let beatTicks : Int := jsRound (Rat.divInt (beat.duration.num * ticksPerMeasure) beat.duration.den)
    (if beat.type = BeatType.strumRest then []
     else
       let strumNotes := if beat.type = BeatType.down then midiNotes else midiNotes.reverse
       (strumNotes.enum.map (fun p =>
         let strumDelay : Int := (p.1 : Int) * 5
         let startTick := currentTick + tickInMeasure + strumDelay
         [⟨startTick, evOn, p.2⟩, ⟨startTick + beatTicks - strumDelay, evOff, p.2⟩])).flatten)
    ++ strumBeatEvents midiNotes currentTick ticksPerMeasure rest (tickInMeasure + beatTicks)

/-- The strum branch of `exportProgressionToMidi`. -/
def strumChordEvents (s : StrumPattern) (voicing : List ChordVoicing) (currentTick : Int) :
    List MidiEvent × Int :=
  let midiNotes := voicing.filterMap (fun v => loggerNoteToMidi v.note)
  let ticksPerMeasure : Int := (s.beatsPerMeasure : Int) * 480
  (strumBeatEvents midiNotes currentTick ticksPerMeasure s.beats 0,
   currentTick + ticksPerMeasure)

/-- The default block-chord branch of `exportProgressionToMidi` (whole note,
`timeDivision * 4` ticks). -/
def blockChordEvents (voicing : List ChordVoicing) (currentTick : Int) :
    List MidiEvent × Int :=
  let midiNotes := voicing.filterMap (fun v => loggerNoteToMidi v.note)
  let ticksPerChord : Int := 480 * 4
  ((midiNotes.map (fun pitch =>
    [⟨currentTick, evOn, pitch⟩, ⟨currentTick + ticksPerChord, evOff, pitch⟩])).flatten,
   currentTick + ticksPerChord)

/-- The per-chord body of the main loop of `exportProgressionToMidi`: resolve
the voicing (an empty voicing is skipped with `continue`, advancing nothing),
look up the patterns, and dispatch on arpeggio / strum / block. -/
def chordMidiEvents (getVoicing : String → Nat → List ChordVoicing)
    (patEnv : String → Option Pattern) (progChord : ProgressionChord) (currentTick : Int) :
    List MidiEvent × Int :=
  let voicing := getVoicing progChord.chord progChord.voicingIndex
  if voicing.length = 0 then ([], currentTick)
  else
    let strumPattern := progChord.strumPatternId.bind patEnv
    let arpeggioPattern := progChord.arpeggioPatternId.bind patEnv
    let activeStrum :=
      match strumPattern with
      | some (Pattern.strum s) => some s
      | _ => none
    let activeArpeggio :=
      match arpeggioPattern with
      | some (Pattern.arpeggio a) => some a
      | _ => none
    match activeArpeggio with
    | some arp => arpeggioChordEvents arp voicing currentTick
    | none =>
      match activeStrum with
      | some s => strumChordEvents s voicing currentTick
      | none => blockChordEvents voicing currentTick

/-- The main loop of `exportProgressionToMidi`: all events (in generation
order) and the final tick counter. -/
def progressionEvents (getVoicing : String → Nat → List ChordVoicing)
    (patEnv : String → Option Pattern) :
    List ProgressionChord → Int → List MidiEvent × Int
  | [], currentTick => ([], currentTick)
  | progChord :: rest, currentTick =>
    let r := chordMidiEvents getVoicing patEnv progChord currentTick
    let rr := progressionEvents getVoicing patEnv rest r.2
    (r.1 ++ rr.1, rr.2)

/-- `allMidiEvents.sort((a, b) => a.tick - b.tick)`: the stable ascending
sort of the generated events. -/
def sortedMidiEvents (getVoicing : String → Nat → List ChordVoicing)
    (patEnv : String → Option Pattern) (prog : List ProgressionChord) : List MidiEvent :=
  List.insertionSort tickLE (progressionEvents getVoicing patEnv prog 0).1

/-- First loop of `writeVarInt`: pack the continuation bytes into `buffer`.
The fuel argument bounds the iteration count; `value + 1` always suffices
since the loop variable shrinks by a factor of 128 each round. -/
def vlqAccumulate : Nat → Nat → Nat → Nat
  | 0, _, buffer => buffer
  | fuel + 1, value, buffer =>
    let v := value / 128
    if 0 < v then vlqAccumulate fuel v (buffer * 256 + (v % 128 + 128)) else buffer

/-- Second loop of `writeVarInt`: emit bytes from `buffer` low byte first,
continuing while the just-emitted byte has its top bit set.  The fuel
`buffer + 1` always suffices since the buffer shrinks by a factor of 256. -/
def vlqEmit : Nat → Nat → List Nat
  | 0, _ => []
  | fuel + 1, buffer =>
    let b := buffer % 256
    if 128 ≤ b then b :: vlqEmit fuel (buffer / 256) else [b]

/-- `writeVarInt` from `logger.ts`: the MIDI variable-length quantity of a
nonnegative value. -/
def writeVarInt (value : Nat) : List Nat :=
  let buffer := vlqAccumulate (value + 1) value (value % 128)
  vlqEmit (buffer + 1) buffer

/-- `writeInt32` from `logger.ts` (big-endian, values below `2^31`). -/
def writeInt32 (value : Nat) : List Nat :=
  [value / 2 ^ 24 % 256, value / 2 ^ 16 % 256, value / 2 ^ 8 % 256, value % 256]

/-- `writeInt16` from `logger.ts` (big-endian). -/
def writeInt16 (value : Nat) : List Nat :=
  [value / 2 ^ 8 % 256, value % 256]

/-- `Math.round(60000000 / bpm)`: the quotient `60000000 / bpm` is formed as
`Rat.divInt (60000000 * bpm.den) bpm.num`, which is the same rational. -/
def microsecondsPerQuarter (bpm : ℚ) : Int :=
  jsRound (Rat.divInt (60000000 * bpm.den) bpm.num)

/-- The tempo meta event bytes: delta 0, `FF 51 03`, then the 24-bit
microseconds-per-quarter value. -/
def tempoMetaBytes (bpm : ℚ) : List Nat :=
  let mpq := (microsecondsPerQuarter bpm).toNat
  [0, 255, 81, 3] ++ [mpq / 2 ^ 16 % 256, mpq / 2 ^ 8 % 256, mpq % 256]

/-- The delta-time/event emission loop of `exportProgressionToMidi`: each
event contributes its delta to the previous event's tick as a VLQ, then
status (`0x90` on / `0x80` off), pitch and the fixed velocity 100.  (For the
sorted nonnegative-tick event lists the serialiser produces, the delta is
nonnegative and `Int.toNat` is exact.) -/
def midiEventBytes : List MidiEvent → Int → List Nat
  | [], _ => []
  | e :: rest, lastTick =>
    writeVarInt (e.tick - lastTick).toNat ++
      [if e.type = evOn then 144 else 128, e.pitch, 100] ++
      midiEventBytes rest e.tick

/-- The complete `MTrk` payload: tempo meta, sorted note events, end-of-track
meta `FF 2F 00`. -/
def trackBytesOf (getVoicing : String → Nat → List ChordVoicing)
    (patEnv : String → Option Pattern) (bpm : ℚ) (prog : List ProgressionChord) : List Nat :=
  tempoMetaBytes bpm ++ midiEventBytes (sortedMidiEvents getVoicing patEnv prog) 0 ++
    [0, 255, 47, 0]

/-- `exportProgressionToMidi` from `logger.ts` as the byte stream it builds
into the downloaded file: `MThd` header (format 0, one track, division 480),
then the `MTrk` chunk. -/
def exportProgressionToMidiBytes (getVoicing : String → Nat → List ChordVoicing)
    (patEnv : String → Option Pattern) (bpm : ℚ) (prog : List ProgressionChord) : List Nat :=
  let trackBytes := trackBytesOf getVoicing patEnv bpm prog
  [77, 84, 104, 100, 0, 0, 0, 6, 0, 0, 0, 1] ++ writeInt16 480 ++
    [77, 84, 114, 107] ++ writeInt32 trackBytes.length ++ trackBytes

/-- `GUITAR_TUNING` from the `data/tunings` module (bundled at the tail of
`src/src/features/logging.ts`): the open-string notes, top (highest-pitched)
string first. -/
def GUITAR_TUNING : List String := ["E4", "B3", "G3", "D3", "A2", "E2"]

/-- Modelled from the spec: `data/chords.ts` is absent from the sources.  The
catalogue entries the scenarios need: the default `C` voicing `x32010`
(S4, S6) and the default `Dm` voicing `xx0231`, whose low E and A strings
(indices 5 and 4) are muted (S5).  Frets are listed top string first,
matching the tuning order. -/
def GUITAR_CHORDS : List (String × List VoicingData) :=
  [("C", [⟨[Fret.fret 0, Fret.fret 1, Fret.fret 0, Fret.fret 2, Fret.fret 3, Fret.x]⟩]),
   ("Dm", [⟨[Fret.fret 1, Fret.fret 3, Fret.fret 2, Fret.fret 0, Fret.x, Fret.x]⟩])]

/-- The voicing resolver specialised to the modelled guitar catalogue. -/
def modelGetVoicing (chordName : String) (voicingIndex : Nat) : List ChordVoicing :=
  getVoicingForChord GUITAR_CHORDS GUITAR_TUNING chordName voicingIndex

/-- The `asc-44` preset of `ARPEGGIO_PATTERNS` in `data/rhythms.ts`: the
scalable ascending arpeggio (empty `noteOrder`). -/
def ascendingPattern : ArpeggioPattern :=
  ⟨"Ascending", 120, 4, "4/4", []⟩

/-- A pattern store exposing just the `asc-44` preset, as `getPatternById`
resolves it. -/
def ascOnlyPatternEnv (id : String) : Option Pattern :=
  if id = "asc-44" then some (Pattern.arpeggio ascendingPattern) else none

/-- The scheduling computation of `audio.playArpeggiatedChord` in `svg.ts`
(lines 396–438) with the audio clock abstracted: the materialised note order
together with the scheduled plays `(note, startOffset, sampleDuration)` in
seconds relative to the chord start. -/
def playArpeggiatedChordPlan (voicing : List ChordVoicing) (durationSeconds : ℚ)
    (pattern : ArpeggioPattern) : List Nat × List (String × ℚ × ℚ) :=
  let noteOrder :=
    if pattern.noteOrder.length = 0 then
      if strIncludes pattern.name "Ascending" then
        List.insertionSort (fun a b : Nat => b ≤ a) (voicing.map (·.stringIndex))
      else
        List.insertionSort (fun a b : Nat => a ≤ b) (voicing.map (·.stringIndex))
    else pattern.noteOrder
  if noteOrder.length = 0 then (noteOrder, [])
  else
    let noteDuration := durationSeconds / (noteOrder.length : ℚ)
    (noteOrder,
     noteOrder.enum.filterMap (fun p =>
       (voicing.find? (fun v => v.stringIndex == p.2)).map (fun noteInfo =>
         (noteInfo.note, (p.1 : ℚ) * noteDuration, noteDuration * (3 / 2)))))

end ProgressionExplorer

namespace ProgressionExplorer

/-- The delta-time sequence the emission loop writes: each event's tick minus
the previous event's tick, starting from 0. -/
def midiDeltas : List MidiEvent → Int → List Int
  | [], _ => []
  | e :: rest, lastTick => (e.tick - lastTick) :: midiDeltas rest e.tick

/-- C3 counterexample: the default `C` voicing (the `x32010` shape of S6 over
the source tuning `E4,B3,G3,D3,A2,E2`) sounds `C3,E3,G3,C4,E4` — one octave
below the claimed `C4,E4,G4,C5,E5` (no `C5` is sounded at all) — so the
serialiser's note-on pitches are `64,60,55,52,48`, not the `76,72,67,64,60`
a `C4..E5` voicing would give. -/
theorem c3_counterexample_voicing_octave :
    (modelGetVoicing "C" 0).map (·.note) = ["E4", "C4", "G3", "E3", "C3"] ∧
    "C5" ∉ (modelGetVoicing "C" 0).map (·.note) ∧
    ((sortedMidiEvents modelGetVoicing (fun _ => none) [⟨"C", 0, none, none⟩]).filter
        (·.type)).map (·.pitch) = [64, 60, 55, 52, 48] ∧
    ([64, 60, 55, 52, 48] : List Nat) ≠ [76, 72, 67, 64, 60] := by
  refine ⟨by decide, by decide, by decide, by decide⟩

/-- C3 amended: exporting a single pattern-less `C` major chord at 120 bpm —
whose default voicing sounds `C3,E3,G3,C4,E4` (pitches `48,52,55,60,64`) —
yields: the 14 header bytes `4D 54 68 64 00 00 00 06 00 00 00 01 01 E0`; an
`MTrk` chunk (length 52) holding the 500000-µs tempo meta
`00 FF 51 03 07 A1 20`; five note-on events (status `0x90 = 144`, velocity
100) all at delta 0; five matching note-off events (status `0x80 = 128`)
whose delta times sum to 1920; and the end-of-track meta `FF 2F 00`. -/
theorem c3_midi_bytes_single_C :
    modelGetVoicing "C" 0 =
      [⟨"E4", 0⟩, ⟨"C4", 1⟩, ⟨"G3", 2⟩, ⟨"E3", 3⟩, ⟨"C3", 4⟩] ∧
    microsecondsPerQuarter 120 = 500000 ∧
    sortedMidiEvents modelGetVoicing (fun _ => none) [⟨"C", 0, none, none⟩] =
      [⟨0, evOn, 64⟩, ⟨0, evOn, 60⟩, ⟨0, evOn, 55⟩, ⟨0, evOn, 52⟩, ⟨0, evOn, 48⟩,
       ⟨1920, evOff, 64⟩, ⟨1920, evOff, 60⟩, ⟨1920, evOff, 55⟩, ⟨1920, evOff, 52⟩,
       ⟨1920, evOff, 48⟩] ∧
    midiDeltas (sortedMidiEvents modelGetVoicing (fun _ => none) [⟨"C", 0, none, none⟩]) 0 =
      [0, 0, 0, 0, 0, 1920, 0, 0, 0, 0] ∧
    ((midiDeltas (sortedMidiEvents modelGetVoicing (fun _ => none) [⟨"C", 0, none, none⟩]) 0).drop 5).sum
      = 1920 ∧
    exportProgressionToMidiBytes modelGetVoicing (fun _ => none) 120 [⟨"C", 0, none, none⟩] =
      [77, 84, 104, 100, 0, 0, 0, 6, 0, 0, 0, 1, 1, 224] ++
      [77, 84, 114, 107, 0, 0, 0, 52] ++
      [0, 255, 81, 3, 7, 161, 32] ++
      [0, 144, 64, 100, 0, 144, 60, 100, 0, 144, 55, 100, 0, 144, 52, 100, 0, 144, 48, 100] ++
      [143, 0, 128, 64, 100, 0, 128, 60, 100, 0, 128, 55, 100, 0, 128, 52, 100, 0, 128, 48, 100] ++
      [0, 255, 47, 0] ∧
    (exportProgressionToMidiBytes modelGetVoicing (fun _ => none) 120 [⟨"C", 0, none, none⟩]).take 14 =
      [77, 84, 104, 100, 0, 0, 0, 6, 0, 0, 0, 1, 1, 224] := by
  refine ⟨by decide, by decide, by decide, by decide, by decide, by decide, by decide⟩

/-- C6: for the scalable `Ascending` arpeggio (empty `noteOrder`) on the `Dm`
guitar voicing with strings 5 and 4 muted (sounded strings `{0,1,2,3}`), the
materialised per-chord note order is `[3, 2, 1, 0]` (D, G, B, E strings),
both in the playback scheduler (`audio.playArpeggiatedChord`) and in the MIDI
serialiser, whose note-on pitches `50, 57, 62, 65 = D3, A3, D4, F4` are the
notes of strings 3, 2, 1, 0 in that order. -/
theorem c6_scalable_ascending_order :
    (modelGetVoicing "Dm" 0).map (·.stringIndex) = [0, 1, 2, 3] ∧
    (playArpeggiatedChordPlan (modelGetVoicing "Dm" 0) 2 ascendingPattern).1 = [3, 2, 1, 0] ∧
    ((playArpeggiatedChordPlan (modelGetVoicing "Dm" 0) 2 ascendingPattern).2.map (·.1)) =
      ["D3", "A3", "D4", "F4"] ∧
    arpeggioNoteOrderMaterialized ascendingPattern (modelGetVoicing "Dm" 0) = [3, 2, 1, 0] ∧
    sortedMidiEvents modelGetVoicing ascOnlyPatternEnv [⟨"Dm", 0, none, some "asc-44"⟩] =
      [⟨0, evOn, 50⟩, ⟨480, evOff, 50⟩, ⟨480, evOn, 57⟩, ⟨960, evOff, 57⟩,
       ⟨960, evOn, 62⟩, ⟨1440, evOff, 62⟩, ⟨1440, evOn, 65⟩, ⟨1920, evOff, 65⟩] ∧
    ((modelGetVoicing "Dm" 0).find? (fun v => v.stringIndex == 3)).map (·.note) = some "D3" ∧
    loggerNoteToMidi "D3" = some 50 := by
  refine ⟨by decide, by decide, by decide, by decide, by decide, by decide, by decide⟩

/-- C7 counterexample: a progression entry with no resolvable voicing is
`continue`d over without advancing the tick counter.  With the unknown chord
`Qux7` followed by `C`, the serialiser's output is byte-identical to the
progression `[C]` alone: the final tick is 1920 (not 3840), and the first
note-on of `C` sits at tick 0 rather than after a 1920-tick silence. -/
theorem c7_counterexample_no_tick_advance :
    modelGetVoicing "Qux7" 0 = [] ∧
    progressionEvents modelGetVoicing (fun _ => none)
        [⟨"Qux7", 0, none, none⟩, ⟨"C", 0, none, none⟩] 0 =
      progressionEvents modelGetVoicing (fun _ => none) [⟨"C", 0, none, none⟩] 0 ∧
    (progressionEvents modelGetVoicing (fun _ => none)
        [⟨"Qux7", 0, none, none⟩, ⟨"C", 0, none, none⟩] 0).2 = 1920 ∧
    ((sortedMidiEvents modelGetVoicing (fun _ => none)
        [⟨"Qux7", 0, none, none⟩, ⟨"C", 0, none, none⟩]).map (·.tick)).head? = some 0 ∧
    exportProgressionToMidiBytes modelGetVoicing (fun _ => none) 120
        [⟨"Qux7", 0, none, none⟩, ⟨"C", 0, none, none⟩] =
      exportProgressionToMidiBytes modelGetVoicing (fun _ => none) 120 [⟨"C", 0, none, none⟩] := by
  refine ⟨by decide, by decide, by decide, by decide, by decide⟩

/-- C7 amended: the serialiser treats a progression entry whose chord has no
resolvable voicing as absent altogether — it emits no events for it and does
not advance the running tick counter, so the generated events, the final tick
and the output bytes all equal those of the progression with every
empty-voicing entry filtered out. -/
theorem c7_amended_skip_entirely (getVoicing : String → Nat → List ChordVoicing)
    (patEnv : String → Option Pattern) (bpm : ℚ) :
    ∀ (prog : List ProgressionChord) (t : Int),
      progressionEvents getVoicing patEnv prog t =
        progressionEvents getVoicing patEnv
          (prog.filter (fun pc => (getVoicing pc.chord pc.voicingIndex).length != 0)) t ∧
      exportProgressionToMidiBytes getVoicing patEnv bpm prog =
        exportProgressionToMidiBytes getVoicing patEnv bpm
          (prog.filter (fun pc => (getVoicing pc.chord pc.voicingIndex).length != 0)) := by
  have hev : ∀ (prog : List ProgressionChord) (t : Int),
      progressionEvents getVoicing patEnv prog t =
        progressionEvents getVoicing patEnv
          (prog.filter (fun pc => (getVoicing pc.chord pc.voicingIndex).length != 0)) t := by
    intro prog
    induction prog with
    | nil => intro t; rfl
    | cons pc rest ih =>
      intro t
      by_cases h : (getVoicing pc.chord pc.voicingIndex).length = 0
      · have hc : chordMidiEvents getVoicing patEnv pc t = ([], t) := by
          unfold chordMidiEvents
          rw [if_pos h]
        simp only [List.filter_cons, h, bne_self_eq_false, if_false, progressionEvents, hc,
          List.nil_append]
        exact ih t
      · simp only [List.filter_cons, bne_iff_ne, ne_eq, h, not_false_eq_true, if_true,
          progressionEvents]
        rw [ih (chordMidiEvents getVoicing patEnv pc t).2]
  intro prog t
  refine ⟨hev prog t, ?_⟩
  unfold exportProgressionToMidiBytes trackBytesOf sortedMidiEvents
  rw [hev prog 0]

/-- JS `pat.startsWith(s)` on strings, via character lists. -/
def strStartsWith (s pat : String) : Bool :=
  pat.toList.isPrefixOf s.toList

/-- `[...new Set(list)]` on naturals: de-duplication keeping first occurrences
(JS `Set` iterates in insertion order). -/
def jsSetDedupNat (l : List Nat) : List Nat :=
  l.foldl (fun acc x => if x ∈ acc then acc else acc ++ [x]) []

/-- `CHORD_INTERVALS` as in `data/theory.ts` and the chord validator
(src/unnamed/part_000), in source insertion order. -/
def CHORD_INTERVALS : List (String × List Nat) :=
  [("", [0, 4, 7]), ("maj7", [0, 4, 7, 11]), ("m", [0, 3, 7]), ("m7", [0, 3, 7, 10]),
   ("7", [0, 4, 7, 10]), ("m7b5", [0, 3, 6, 10]), ("dim", [0, 3, 6])]

/-- `PC` from the chord validator: `((n % 12) + 12) % 12`. -/
def cvPC (n : Int) : Nat :=
  ((n % 12 + 12) % 12).toNat

/-- `noteToPc` from the chord validator: fold the five flat spellings to
sharps (the chained `String.replace` calls act on root names of at most two
characters, where first-occurrence replacement is exact-match mapping), then
`NOTES.indexOf`. -/
def cvNoteToPc (name : String) : Int :=
  jsIndexOf NOTES
    (if name = "Db" then "C#"
     else if name = "Eb" then "D#"
     else if name = "Gb" then "F#"
     else if name = "Ab" then "G#"
     else if name = "Bb" then "A#"
     else name)

/-- The validator's own `GUITAR_TUNING` (src/unnamed/part_000, top string
first). -/
def cvGUITAR_TUNING : List String := ["E4", "B3", "G3", "D3", "A2", "E2"]

/-- The validator's own `UKULELE_TUNING` (src/unnamed/part_000). -/
def cvUKULELE_TUNING : List String := ["A4", "E4", "C4", "G4"]

/-- The sharp-only pitch-class table of `midiOf`'s first regex branch. -/
def cvSharpPcs : List (String × Nat) :=
  [("C", 0), ("C#", 1), ("D", 2), ("D#", 3), ("E", 4), ("F", 5), ("F#", 6),
   ("G", 7), ("G#", 8), ("A", 9), ("A#", 10), ("B", 11)]

/-- `midiOf` from the chord validator, for the regex `^([A-G]#?)(-?\d+)$`
(sharp root, signed octave).  The octave-less fallback branch is not needed
for the tunings the program passes and is modelled as a failure. -/
def cvMidiOf (note : String) : Except String Int :=
  match note.toList with
  | c :: rest =>
    if 'A' ≤ c ∧ c ≤ 'G' then
      let rootAndRest : String × List Char :=
        match rest with
        | '#' :: rest2 => (String.mk [c, '#'], rest2)
        | _ => (String.mk [c], rest)
      let signAndDigits : Bool × List Char :=
        match rootAndRest.2 with
        | '-' :: ds => (true, ds)
        | ds => (false, ds)
      match digitsToNat? signAndDigits.2 with
      | some o =>
        let octave : Int := if signAndDigits.1 then -(o : Int) else o
        match assocFind cvSharpPcs rootAndRest.1 with
        | some pc => .ok ((octave + 1) * 12 + pc)
        | none => .error ("Bad note " ++ note)
      | none => .error ("Bad note " ++ note)
    else .error ("Bad note " ++ note)
  | [] => .error ("Bad note " ++ note)

/-- `tuningToPcs` from the chord validator.  (`midiOf` never fails on the
program's tuning strings; a failure is mapped to pitch class 0.) -/
def cvTuningToPcs (tuning : List String) : List Nat :=
  tuning.map (fun n =>
    match cvMidiOf n with
    | .ok m => cvPC m
    | .error _ => 0)

/-- The two-character root alternatives of `parseRoot`'s regex, in
alternation order. -/
def cvTwoCharRoots : List String :=
  ["A#", "Bb", "C#", "Db", "D#", "Eb", "F#", "Gb", "G#", "Ab"]

/-- `parseRoot` from the chord validator: root (two-character alternatives
first, then `[A-G]`), pitch class via `noteToPc`, and quality normalisation;
unsupported qualities raise. -/
def cvParseRoot (symbol : String) : Except String (Int × String) :=
  let cs := symbol.toList
  let rootQual : Option (String × String) :=
    match cs with
    | c1 :: c2 :: rest =>
      if String.mk [c1, c2] ∈ cvTwoCharRoots then some (String.mk [c1, c2], String.mk rest)
      else if 'A' ≤ c1 ∧ c1 ≤ 'G' then some (String.mk [c1], String.mk (c2 :: rest))
      else none
    | [c1] => if 'A' ≤ c1 ∧ c1 ≤ 'G' then some (String.mk [c1], "") else none
    | [] => none
  match rootQual with
  | none => .error ("Bad chord symbol " ++ symbol)
  | some (root, qual) =>
    let pc := cvNoteToPc root
    if qual = "" then .ok (pc, "")
    else if strStartsWith qual "maj7" then .ok (pc, "maj7")
    else if strStartsWith qual "m7b5" then .ok (pc, "m7b5")
    else if strStartsWith qual "m7" then .ok (pc, "m7")
    else if qual = "m" then .ok (pc, "m")
    else if qual = "7" then .ok (pc, "7")
    else if qual = "dim" then .ok (pc, "dim")
    else .error ("Unsupported quality: " ++ qual ++ " in " ++ symbol)

/-- `expectedSet` from the chord validator: the set (in insertion order) of
pitch classes of the chord's interval structure over the root. -/
def cvExpectedSet (rootPc : Int) (quality : String) : List Nat :=
  jsSetDedupNat (((assocFind CHORD_INTERVALS quality).getD []).map (fun iv => cvPC (rootPc + iv)))

/-- `voicingToPcs` from the chord validator: raises on a string-count
mismatch against the tuning, otherwise the sounded pitch classes in string
order.  (Frets are naturals here, so the source's negative/ill-typed fret
errors cannot fire.) -/
def voicingToPcs (v : VoicingData) (openPcs : List Nat) : Except String (List Nat) :=
  if v.frets.length ≠ openPcs.length then
    .error ("String count mismatch: frets=" ++ toString v.frets.length ++
      ", tuning=" ++ toString openPcs.length)
  else
    .ok ((openPcs.zip v.frets).filterMap (fun p =>
      match p.2 with
      | Fret.x => none
      | Fret.fret f => some (cvPC ((p.1 : Int) + f))))

/-- A validation record (`{symbol, index, problems}`). -/
structure CatalogIssue where
  symbol : String
  index : Int
  problems : List String
deriving DecidableEq, Repr

/-- The per-voicing loop of `validateCatalog`. -/
def validateVoicings (symbol : String) (want : List Nat) (openPcs : List Nat) :
    List VoicingData → Nat → List CatalogIssue
  | [], _ => []
  | v :: rest, idx =>
    (match voicingToPcs v openPcs with
     | .error e => [⟨symbol, (idx : Int), [e]⟩]
     | .ok pcs =>
       let unique := jsSetDedupNat pcs
       let missing := want.filter (fun w => !(unique.contains w))
       let extraneous := unique.filter (fun p => !(want.contains p))
       let prob :=
         (if missing.length ≠ 0 then
            ["missing: " ++ String.intercalate "," (missing.map (fun x => NOTES.getD x ""))]
          else []) ++
         (if extraneous.length ≠ 0 then
            ["non-chord tones: " ++ String.intercalate "," (extraneous.map (fun x => NOTES.getD x ""))]
          else []) ++
         (if pcs.length = 0 then ["all strings muted"] else [])
       if prob.length ≠ 0 then [⟨symbol, (idx : Int), prob⟩] else []) ++
    validateVoicings symbol want openPcs rest (idx + 1)

/-- `validateCatalog` from the chord validator (src/unnamed/part_000): scan
every `(chord, voicing)` pair and collect advisory issues; a symbol whose
root or quality fails to parse is reported once with index `-1`. -/
def validateCatalog (label : String) (chords : List (String × List VoicingData)) :
    List CatalogIssue :=
  let openPcs :=
    if label = "guitar" then cvTuningToPcs cvGUITAR_TUNING else cvTuningToPcs cvUKULELE_TUNING
  (chords.map (fun p =>
    match cvParseRoot p.1 with
    | .error e => [(⟨p.1, -1, [e]⟩ : CatalogIssue)]
    | .ok rq => validateVoicings p.1 (cvExpectedSet rq.1 rq.2) openPcs p.2 0)).flatten

/-- A catalogue holding a `C` voicing with only five fret entries: a
string-count mismatch against the six-string guitar tuning. -/
def BAD_GUITAR_CHORDS : List (String × List VoicingData) :=
  [("C", [⟨[Fret.fret 0, Fret.fret 1, Fret.fret 0, Fret.fret 2, Fret.fret 3]⟩])]

/-- C8 counterexample: the validator records the string-count mismatch, but
the offending voicing is not excluded from runtime selection — the resolver
still returns notes derived from it. -/
theorem c8_counterexample_not_excluded :
    validateCatalog "guitar" BAD_GUITAR_CHORDS =
      [⟨"C", 0, ["String count mismatch: frets=5, tuning=6"]⟩] ∧
    getVoicingForChord BAD_GUITAR_CHORDS GUITAR_TUNING "C" 0 ≠ [] := by
  refine ⟨by decide, by decide⟩

/-- C8 amended: a load-time invariant violation (string-count mismatch) is
recorded by the validator, but validation is advisory only: the voicing
resolver ignores it and still returns the notes derived from the offending
voicing.  (On the well-formed modelled catalogue the validator reports no
issues.) -/
theorem c8_amended_validator_advisory :
    validateCatalog "guitar" BAD_GUITAR_CHORDS =
      [⟨"C", 0, ["String count mismatch: frets=5, tuning=6"]⟩] ∧
    getVoicingForChord BAD_GUITAR_CHORDS GUITAR_TUNING "C" 0 =
      [⟨"E4", 0⟩, ⟨"C4", 1⟩, ⟨"G3", 2⟩, ⟨"E3", 3⟩, ⟨"C3", 4⟩] ∧
    validateCatalog "guitar" GUITAR_CHORDS = [] := by
  refine ⟨by decide, by decide, by decide⟩

/-- C9 counterexample: one call of the suggestion function mutates the rule
tables.  After `getCommonProgressions('C', 'C', false)` the
`PROGRESSION_RULES_MAJOR['I']` array has been reordered in place by the
descending-weight sort — its first entry is now `{to: IV, weight: 8}` instead
of the original `{to: I, weight: 2}` — so the table is not left exactly as it
was. -/
theorem c9_counterexample_table_mutated :
    (getCommonProgressionsFull PROGRESSION_RULES_MAJOR PROGRESSION_RULES_MINOR
        "C" "C" false).2.1 ≠ PROGRESSION_RULES_MAJOR ∧
    assocFind ((getCommonProgressionsFull PROGRESSION_RULES_MAJOR PROGRESSION_RULES_MINOR
        "C" "C" false).2.1) "I" =
      some [⟨"IV", 8, false⟩, ⟨"V", 7, false⟩, ⟨"ii", 6, false⟩, ⟨"vi", 5, false⟩,
        ⟨"iv", 5, true⟩, ⟨"V/V", 4, false⟩, ⟨"♭VII", 4, true⟩, ⟨"iii", 3, false⟩,
        ⟨"V/iii", 3, false⟩, ⟨"I", 2, false⟩] ∧
    assocFind PROGRESSION_RULES_MAJOR "I" =
      some [⟨"I", 2, false⟩, ⟨"IV", 8, false⟩, ⟨"V", 7, false⟩, ⟨"ii", 6, false⟩,
        ⟨"vi", 5, false⟩, ⟨"iv", 5, true⟩, ⟨"V/V", 4, false⟩, ⟨"♭VII", 4, true⟩,
        ⟨"iii", 3, false⟩, ⟨"V/iii", 3, false⟩] := by
  refine ⟨by decide, by decide, by decide⟩

/-- Updating an absent key changes nothing. -/
theorem assocUpdate_not_mem {β : Type} (k : String) (v : β) :
    ∀ (obj : List (String × β)), k ∉ obj.map Prod.fst → assocUpdate obj k v = obj := by
  intro obj
  induction obj with
  | nil => intro _; rfl
  | cons p rest ih =>
    intro h
    simp only [List.map_cons, List.mem_cons, not_or] at h
    unfold assocUpdate
    rw [if_neg (fun hk => h.1 hk.symm), ih h.2]

/-- Replacing the list stored at a present key (unique among the keys) by a
permutation of it relates the updated table to the original entrywise: equal
keys and permuted values. -/
theorem assocUpdate_forall₂ {β : Type} (k : String) (v l : List β) :
    ∀ (obj : List (String × List β)), assocFind obj k = some l →
      (obj.map Prod.fst).Nodup → v.Perm l →
      List.Forall₂ (fun p q => p.1 = q.1 ∧ p.2.Perm q.2) (assocUpdate obj k v) obj := by
  intro obj
  induction obj with
  | nil => intro hfind; exact absurd hfind (by simp [assocFind])
  | cons p rest ih =>
    intro hfind hnodup hperm
    simp only [List.map_cons, List.nodup_cons] at hnodup
    by_cases hk : p.1 = k
    · have hl : p.2 = l := by
        unfold assocFind at hfind
        rw [if_pos hk] at hfind
        exact Option.some.inj hfind
      unfold assocUpdate
      rw [if_pos hk, assocUpdate_not_mem k v rest (hk ▸ hnodup.1)]
      exact List.Forall₂.cons ⟨rfl, hl ▸ hperm⟩
        (List.forall₂_same.2 (fun x _ => ⟨rfl, List.Perm.refl _⟩))
    · have hfind' : assocFind rest k = some l := by
        unfold assocFind at hfind
        rwa [if_neg hk] at hfind
      unfold assocUpdate
      rw [if_neg hk]
      exact List.Forall₂.cons ⟨rfl, List.Perm.refl _⟩ (ih hfind' hnodup.2 hperm)

/-- C9 amended: a call of the suggestion function never adds, removes or
rewrites a transition — each table keeps exactly its keys in order, and every
rules array keeps exactly its elements; only the array looked up for the
current function may be reordered in place (into descending-weight order) by
the JS `sort`.  Entrywise, both tables after the call are key-equal
permutations of the originals. -/
theorem c9_amended_tables_permuted (fromChord key : String) (allowBorrowed : Bool) :
    List.Forall₂ (fun p q => p.1 = q.1 ∧ p.2.Perm q.2)
      (getCommonProgressionsFull PROGRESSION_RULES_MAJOR PROGRESSION_RULES_MINOR
        fromChord key allowBorrowed).2.1 PROGRESSION_RULES_MAJOR ∧
    List.Forall₂ (fun p q => p.1 = q.1 ∧ p.2.Perm q.2)
      (getCommonProgressionsFull PROGRESSION_RULES_MAJOR PROGRESSION_RULES_MINOR
        fromChord key allowBorrowed).2.2 PROGRESSION_RULES_MINOR := by
  have hrefl : ∀ (obj : List (String × List Transition)),
      List.Forall₂ (fun p q => p.1 = q.1 ∧ p.2.Perm q.2) obj obj :=
    fun obj => List.forall₂_same.2 (fun x _ => ⟨rfl, List.Perm.refl _⟩)
  unfold getCommonProgressionsFull
  cases hf : findFunctionOfChord fromChord key with
  | none => exact ⟨hrefl _, hrefl _⟩
  | some currentFunction =>
    by_cases hm : keyEndsWithM key = true
    · simp only [hm, if_true]
      cases hfind : assocFind PROGRESSION_RULES_MINOR currentFunction with
      | none => exact ⟨hrefl _, hrefl _⟩
      | some rules =>
        refine ⟨hrefl _, ?_⟩
        exact assocUpdate_forall₂ currentFunction _ rules PROGRESSION_RULES_MINOR hfind
          (by decide) (List.perm_insertionSort weightGE rules)
    · simp only [Bool.not_eq_true] at hm
      simp only [hm, Bool.false_eq_true, if_false]
      cases hfind : assocFind PROGRESSION_RULES_MAJOR currentFunction with
      | none => exact ⟨hrefl _, hrefl _⟩
      | some rules =>
        refine ⟨?_, hrefl _⟩
        exact assocUpdate_forall₂ currentFunction _ rules PROGRESSION_RULES_MAJOR hfind
          (by decide) (List.perm_insertionSort weightGE rules)

/-- Count of note-on events at a given pitch. -/
def evCountOn (p : Nat) (l : List MidiEvent) : Nat :=
  l.countP (fun e => e.type && e.pitch == p)

/-- Count of note-off events at a given pitch. -/
def evCountOff (p : Nat) (l : List MidiEvent) : Nat :=
  l.countP (fun e => !e.type && e.pitch == p)

/-- An event list is balanced when every pitch has as many note-ons as
note-offs. -/
def Balanced (l : List MidiEvent) : Prop :=
  ∀ p, evCountOn p l = evCountOff p l

/-- The empty event list is balanced. -/
theorem balanced_nil : Balanced [] := fun _ => rfl

/-- Balance is preserved by concatenation. -/
theorem balanced_append {l₁ l₂ : List MidiEvent} (h₁ : Balanced l₁) (h₂ : Balanced l₂) :
    Balanced (l₁ ++ l₂) := by
  intro p
  unfold Balanced evCountOn evCountOff at *
  rw [List.countP_append, List.countP_append, h₁ p, h₂ p]

/-- A matching on/off pair at one pitch is balanced. -/
theorem balanced_pair (t₁ t₂ : Int) (p : Nat) :
    Balanced [⟨t₁, evOn, p⟩, ⟨t₂, evOff, p⟩] := by
  intro q
  unfold evCountOn evCountOff evOn evOff
  by_cases h : p = q
  · subst h; simp [List.countP_cons]
  · simp [List.countP_cons, beq_iff_eq, h]

/-- A flatten of balanced lists is balanced. -/
theorem balanced_flatten : ∀ (L : List (List MidiEvent)),
    (∀ x ∈ L, Balanced x) → Balanced L.flatten := by
  intro L
  induction L with
  | nil => intro _; exact balanced_nil
  | cons x rest ih =>
    intro h
    rw [List.flatten_cons]
    exact balanced_append (h x (List.mem_cons_self x rest))
      (ih (fun y hy => h y (List.mem_cons_of_mem x hy)))

/-- Balance transfers along permutations (counting is permutation-invariant). -/
theorem balanced_of_perm {l₁ l₂ : List MidiEvent} (hp : l₁.Perm l₂) (h : Balanced l₁) :
    Balanced l₂ := by
  intro p
  unfold Balanced evCountOn evCountOff at *
  rw [← hp.countP_eq, ← hp.countP_eq, h p]

/-- The arpeggio branch emits a matching off for every on. -/
theorem arpeggioChordEvents_balanced (arp : ArpeggioPattern) (voicing : List ChordVoicing)
    (t : Int) : Balanced (arpeggioChordEvents arp voicing t).1 := by
  simp only [arpeggioChordEvents]
  split
  · exact balanced_nil
  · refine balanced_flatten _ (fun x hx => ?_)
    simp only [List.mem_map] at hx
    obtain ⟨p, _, rfl⟩ := hx
    split
    · split
      · split
        · exact balanced_pair _ _ _
        · exact balanced_nil
      · exact balanced_nil
    · exact balanced_nil

/-- The per-beat strum loop emits a matching off for every on. -/
theorem strumBeatEvents_balanced (midiNotes : List Nat) (currentTick ticksPerMeasure : Int) :
    ∀ (beats : List StrumBeat) (tim : Int),
      Balanced (strumBeatEvents midiNotes currentTick ticksPerMeasure beats tim) := by
  intro beats
  induction beats with
  | nil => intro _; exact balanced_nil
  | cons beat rest ih =>
    intro tim
    unfold strumBeatEvents
    refine balanced_append ?_ (ih _)
    split
    · exact balanced_nil
    · refine balanced_flatten _ (fun x hx => ?_)
      simp only [List.mem_map] at hx
      obtain ⟨p, _, rfl⟩ := hx
      exact balanced_pair _ _ _

/-- The strum branch is balanced. -/
theorem strumChordEvents_balanced (s : StrumPattern) (voicing : List ChordVoicing) (t : Int) :
    Balanced (strumChordEvents s voicing t).1 :=
  strumBeatEvents_balanced _ _ _ s.beats 0

/-- The block branch is balanced. -/
theorem blockChordEvents_balanced (voicing : List ChordVoicing) (t : Int) :
    Balanced (blockChordEvents voicing t).1 := by
  unfold blockChordEvents
  refine balanced_flatten _ (fun x hx => ?_)
  simp only [List.mem_map] at hx
  obtain ⟨p, _, rfl⟩ := hx
  exact balanced_pair _ _ _

/-- Every chord contributes a balanced event list. -/
theorem chordMidiEvents_balanced (gv : String → Nat → List ChordVoicing)
    (pe : String → Option Pattern) (pc : ProgressionChord) (t : Int) :
    Balanced (chordMidiEvents gv pe pc t).1 := by
  simp only [chordMidiEvents]
  split
  · exact balanced_nil
  · split
    · exact arpeggioChordEvents_balanced _ _ _
    · split
      · exact strumChordEvents_balanced _ _ _
      · exact blockChordEvents_balanced _ _

/-- The whole generated event stream is balanced. -/
theorem progressionEvents_balanced (gv : String → Nat → List ChordVoicing)
    (pe : String → Option Pattern) :
    ∀ (prog : List ProgressionChord) (t : Int),
      Balanced (progressionEvents gv pe prog t).1 := by
  intro prog
  induction prog with
  | nil => intro _; exact balanced_nil
  | cons pc rest ih =>
    intro t
    exact balanced_append (chordMidiEvents_balanced gv pe pc t) (ih _)

/-- Rounding a ratio of nonnegatives is nonnegative. -/
theorem jsRound_divInt_nonneg {a b : Int} (ha : 0 ≤ a) (hb : 0 ≤ b) :
    0 ≤ jsRound (Rat.divInt a b) := by
  have hq : 0 ≤ Rat.divInt a b := Rat.divInt_nonneg ha hb
  have hnum : 0 ≤ (Rat.divInt a b).num := Rat.num_nonneg.2 hq
  have hden : (0 : Int) < ((Rat.divInt a b).den : Int) := by exact_mod_cast (Rat.divInt a b).pos
  unfold jsRound
  exact Int.fdiv_nonneg (by omega) (by omega)

/-- Validity of pattern data as the rhythm model stores it: strum beats carry
nonnegative durations (every preset and grid-converted pattern does). -/
def patternDurationsNonneg : Pattern → Prop
  | Pattern.strum s => ∀ b ∈ s.beats, 0 ≤ b.duration
  | Pattern.arpeggio _ => True

/-- Arpeggio-branch ticks stay nonnegative and the counter advances. -/
theorem arpeggioChordEvents_tick_nonneg (arp : ArpeggioPattern) (voicing : List ChordVoicing)
    (t : Int) (ht : 0 ≤ t) :
    (∀ e ∈ (arpeggioChordEvents arp voicing t).1, 0 ≤ e.tick) ∧
    t ≤ (arpeggioChordEvents arp voicing t).2 := by
  simp only [arpeggioChordEvents]
  split
  · exact ⟨fun e he => absurd he (List.not_mem_nil e), le_refl t⟩
  · constructor
    · intro e he
      simp only [List.mem_flatten, List.mem_map] at he
      obtain ⟨l', ⟨p, hp, rfl⟩, hel⟩ := he
      split at hel
      · split at hel
        · split at hel
          · simp only [List.mem_cons, List.not_mem_nil, or_false] at hel
            rcases hel with rfl | rfl
            · exact add_nonneg ht (by positivity)
            · exact add_nonneg (add_nonneg ht (by positivity)) (by positivity)
          · exact absurd hel (List.not_mem_nil e)
        · exact absurd hel (List.not_mem_nil e)
      · exact absurd hel (List.not_mem_nil e)
    · exact le_add_of_nonneg_right (by positivity)

/-- Strum-loop ticks stay nonnegative while the in-measure offset does. -/
theorem strumBeatEvents_tick_nonneg (midiNotes : List Nat) (currentTick ticksPerMeasure : Int)
    (ht : 0 ≤ currentTick) (htpm : 0 ≤ ticksPerMeasure) :
    ∀ (beats : List StrumBeat) (tim : Int), 0 ≤ tim → (∀ b ∈ beats, 0 ≤ b.duration) →
      ∀ e ∈ strumBeatEvents midiNotes currentTick ticksPerMeasure beats tim, 0 ≤ e.tick := by
  intro beats
  induction beats with
  | nil => intro tim _ _ e he; exact absurd he (List.not_mem_nil e)
  | cons beat rest ih =>
    intro tim htim hdur e he
    have hdur0 : 0 ≤ beat.duration := hdur beat (List.mem_cons_self beat rest)
    have hbt : 0 ≤ jsRound (Rat.divInt (beat.duration.num * ticksPerMeasure) beat.duration.den) :=
      jsRound_divInt_nonneg (mul_nonneg (Rat.num_nonneg.2 hdur0) htpm) (Int.natCast_nonneg _)
    simp only [strumBeatEvents, List.mem_append] at he
    rcases he with he | he
    · split at he
      · exact absurd he (List.not_mem_nil e)
      · simp only [List.mem_flatten, List.mem_map] at he
        obtain ⟨l', ⟨p, hp, rfl⟩, hel⟩ := he
        simp only [List.mem_cons, List.not_mem_nil, or_false] at hel
        rcases hel with rfl | rfl
        · simp only
          omega
        · simp only
          omega
    · exact ih (tim + _) (by omega) (fun b hb => hdur b (List.mem_cons_of_mem beat hb)) e he

/-- Strum-branch ticks stay nonnegative and the counter advances. -/
theorem strumChordEvents_tick_nonneg (s : StrumPattern) (voicing : List ChordVoicing)
    (t : Int) (ht : 0 ≤ t) (hdur : ∀ b ∈ s.beats, 0 ≤ b.duration) :
    (∀ e ∈ (strumChordEvents s voicing t).1, 0 ≤ e.tick) ∧
    t ≤ (strumChordEvents s voicing t).2 := by
  constructor
  · intro e he
    exact strumBeatEvents_tick_nonneg _ t ((s.beatsPerMeasure : Int) * 480) ht
      (by positivity) s.beats 0 (le_refl 0) hdur e he
  · exact le_add_of_nonneg_right (by positivity)

/-- Block-branch ticks stay nonnegative and the counter advances. -/
theorem blockChordEvents_tick_nonneg (voicing : List ChordVoicing) (t : Int) (ht : 0 ≤ t) :
    (∀ e ∈ (blockChordEvents voicing t).1, 0 ≤ e.tick) ∧
    t ≤ (blockChordEvents voicing t).2 := by
  simp only [blockChordEvents]
  constructor
  · intro e he
    simp only [List.mem_flatten, List.mem_map] at he
    obtain ⟨l', ⟨p, hp, rfl⟩, hel⟩ := he
    simp only [List.mem_cons, List.not_mem_nil, or_false] at hel
    rcases hel with rfl | rfl
    · exact ht
    · simp only
      omega
  · omega

/-- Every chord leaves ticks nonnegative and never rewinds the counter, given
a pattern store with nonnegative beat durations. -/
theorem chordMidiEvents_tick_nonneg (gv : String → Nat → List ChordVoicing)
    (pe : String → Option Pattern)
    (hpe : ∀ id p, pe id = some p → patternDurationsNonneg p)
    (pc : ProgressionChord) (t : Int) (ht : 0 ≤ t) :
    (∀ e ∈ (chordMidiEvents gv pe pc t).1, 0 ≤ e.tick) ∧
    t ≤ (chordMidiEvents gv pe pc t).2 := by
  simp only [chordMidiEvents]
  split
  · exact ⟨fun e he => absurd he (List.not_mem_nil e), le_refl t⟩
  · split
    · exact arpeggioChordEvents_tick_nonneg _ _ t ht
    · split
      · next s hs =>
        refine strumChordEvents_tick_nonneg s _ t ht ?_
        revert hs
        cases hbind : pc.strumPatternId.bind pe with
        | none => intro hs; exact absurd hs (by simp)
        | some pat =>
          cases pat with
          | strum s' =>
            intro hs
            have hss : s' = s := by
              simpa using hs
            obtain ⟨id, _, hid⟩ := Option.bind_eq_some.1 hbind
            have := hpe id (Pattern.strum s') hid
            exact hss ▸ this
          | arpeggio a => intro hs; exact absurd hs (by simp)
      · exact blockChordEvents_tick_nonneg _ t ht

/-- The generated stream has nonnegative ticks and a monotone final counter. -/
theorem progressionEvents_tick_nonneg (gv : String → Nat → List ChordVoicing)
    (pe : String → Option Pattern)
    (hpe : ∀ id p, pe id = some p → patternDurationsNonneg p) :
    ∀ (prog : List ProgressionChord) (t : Int), 0 ≤ t →
      (∀ e ∈ (progressionEvents gv pe prog t).1, 0 ≤ e.tick) ∧
      t ≤ (progressionEvents gv pe prog t).2 := by
  intro prog
  induction prog with
  | nil => intro t ht; exact ⟨fun e he => absurd he (List.not_mem_nil e), le_refl t⟩
  | cons pc rest ih =>
    intro t ht
    have hc := chordMidiEvents_tick_nonneg gv pe hpe pc t ht
    have hr := ih (chordMidiEvents gv pe pc t).2 (le_trans ht hc.2)
    simp only [progressionEvents]
    constructor
    · intro e he
      rcases List.mem_append.1 he with he | he
      · exact hc.1 e he
      · exact hr.1 e he
    · exact le_trans hc.2 hr.2

/-- Deltas over a sorted run of events are nonnegative once every tick is at
least the starting reference. -/
theorem midiDeltas_nonneg : ∀ (evs : List MidiEvent) (last : Int),
    List.Pairwise tickLE evs → (∀ e ∈ evs, last ≤ e.tick) →
    ∀ d ∈ midiDeltas evs last, 0 ≤ d := by
  intro evs
  induction evs with
  | nil => intro last _ _ d hd; exact absurd hd (List.not_mem_nil d)
  | cons e rest ih =>
    intro last hpw hge d hd
    simp only [midiDeltas, List.mem_cons] at hd
    rcases hd with rfl | hd
    · have := hge e (List.mem_cons_self e rest)
      omega
    · exact ih e.tick (List.Pairwise.of_cons hpw)
        (fun e' he' => (List.pairwise_cons.1 hpw).1 e' he') d hd

/-- C10: for every voicing resolver, every pattern store whose strum beats
carry nonnegative durations, and every progression, the serialiser's event
stream is well formed — after the internal sort the ticks are non-decreasing
and nonnegative, every delta time written as a variable-length quantity is
nonnegative, and each pitch receives exactly as many note-on as note-off
events. -/
theorem c10_serialiser_wellformed (gv : String → Nat → List ChordVoicing)
    (pe : String → Option Pattern) (prog : List ProgressionChord)
    (hpe : ∀ id p, pe id = some p → patternDurationsNonneg p) :
    List.Pairwise tickLE (sortedMidiEvents gv pe prog) ∧
    (∀ e ∈ sortedMidiEvents gv pe prog, 0 ≤ e.tick) ∧
    (∀ d ∈ midiDeltas (sortedMidiEvents gv pe prog) 0, 0 ≤ d) ∧
    (∀ p, evCountOn p (sortedMidiEvents gv pe prog) =
      evCountOff p (sortedMidiEvents gv pe prog)) := by
  have hsorted : List.Pairwise tickLE (sortedMidiEvents gv pe prog) :=
    List.sorted_insertionSort tickLE (progressionEvents gv pe prog 0).1
  have hmem : ∀ e ∈ sortedMidiEvents gv pe prog, 0 ≤ e.tick := by
    intro e he
    rw [sortedMidiEvents, List.mem_insertionSort] at he
    exact (progressionEvents_tick_nonneg gv pe hpe prog 0 (le_refl 0)).1 e he
  refine ⟨hsorted, hmem, midiDeltas_nonneg _ 0 hsorted hmem, ?_⟩
  exact balanced_of_perm (List.perm_insertionSort tickLE _).symm
    (progressionEvents_balanced gv pe prog 0)

/-- Witness for C10, at the modelled voicing resolver, an empty pattern
store, and the single-chord progression `[C]`. -/
theorem c10_serialiser_wellformed_witness :
    List.Pairwise tickLE (sortedMidiEvents modelGetVoicing (fun _ => none)
      [⟨"C", 0, none, none⟩]) ∧
    (∀ e ∈ sortedMidiEvents modelGetVoicing (fun _ => none) [⟨"C", 0, none, none⟩],
      0 ≤ e.tick) ∧
    (∀ d ∈ midiDeltas (sortedMidiEvents modelGetVoicing (fun _ => none)
      [⟨"C", 0, none, none⟩]) 0, 0 ≤ d) ∧
    (∀ p, evCountOn p (sortedMidiEvents modelGetVoicing (fun _ => none)
        [⟨"C", 0, none, none⟩]) =
      evCountOff p (sortedMidiEvents modelGetVoicing (fun _ => none)
        [⟨"C", 0, none, none⟩])) :=
  c10_serialiser_wellformed modelGetVoicing (fun _ => none) [⟨"C", 0, none, none⟩]
    (fun _ _ h => Option.noConfusion h)

end ProgressionExplorer
